import Mathlib

/-!
Verification of the apnakhatabook ledger application (`apnakhatabook.py`).

The program is a personal lending/borrowing ledger backed by two SQLite
tables, `users` and `records`.  We shallowly embed the two relations and
every store operation the claims touch:

* `ensure_admin`         — bootstrap of the default admin account,
* `add_user`             — signup (`INSERT`, failing on a duplicate key),
* `verify_user`          — credential check,
* `reset_password`       — the `UPDATE users SET password` reset handler,
* `update_record`        — the running-balance ledger append,
* `delete_record_by_id`, `delete_all_by_payee`, `delete_user` — deletions,
* `generate_csv`         — the per-payee CSV export,
* `payee_summary_balance` — the `SUM(received) - SUM(paid_out)` display
  aggregate of the "My Record" page.

Modelling choices: SQLite `REAL` amounts are embedded as `Rat` (the float
representation itself is not load-bearing for any claim); the SHA-256
function `hash_password` is an abstract parameter `hash : String → String`
(its internals are irrelevant to the claims, which only compare hashes);
timestamps are the already-formatted `TEXT` strings stored in the table,
so the wall clock is a plain `String` argument.  Row ids reproduce the
`INTEGER PRIMARY KEY AUTOINCREMENT` column via an explicit `nextId`
counter.  `ORDER BY` on ties is unspecified in SQLite; we fix a stable
insertion sort, which no claim distinguishes.  Pandas `to_csv` on an
empty frame yields just a newline; on a nonempty frame it yields the
header line followed by one comma-separated line per row (the exact
float rendering of pandas is approximated by `ratStr` and is not relied
upon by any theorem).
-/

/-- A row of the `users` table: `username TEXT PRIMARY KEY, password TEXT, role TEXT`.
The `password` column stores the (hashed) credential string. -/
structure UserRec where
  username : String
  password : String
  role : String
deriving DecidableEq

/-- A row of the `records` table, fields in column order:
`id, owner_username, received, paid_out, datetime, payee, total_paid, total_received, note`.
`total_received` is the stored running balance, `total_paid` the stored
running paid total (the Python code reads them as `row[7]` and `row[6]`). -/
structure RecordRow where
  id : Nat
  owner_username : String
  received : Rat
  paid_out : Rat
  datetime : String
  payee : String
  total_paid : Rat
  total_received : Rat
  note : String
deriving DecidableEq

/-- The whole database: both tables plus the next `AUTOINCREMENT` id. -/
structure DB where
  users : List UserRec
  records : List RecordRow
  nextId : Nat
deriving DecidableEq

/-- The freshly created database: both tables empty, ids starting at 1
(SQLite autoincrement starts at 1). -/
def DB.empty : DB := ⟨[], [], 1⟩

/-- `ensure_admin`: if no `admin` row exists, insert
`("admin", hash_password("vinsolit"), "admin")`; otherwise, if the stored
credential is the plaintext `"vinsolit"`, rehash it in place. -/
def ensure_admin (hash : String → String) (db : DB) : DB :=
  match db.users.find? (fun u => u.username == "admin") with
  | none =>
      { db with users := db.users ++ [⟨"admin", hash "vinsolit", "admin"⟩] }
  | some admin =>
      if admin.password == "vinsolit" then
        { db with users := db.users.map (fun u =>
            if u.username == "admin" then { u with password := hash "vinsolit" } else u) }
      else db

/-- `add_user`: `INSERT INTO users VALUES (username, hash(password), "user")`;
a duplicate primary key raises `IntegrityError`, returned as `false` with
the database unchanged. -/
def add_user (hash : String → String) (db : DB) (username password : String) :
    Bool × DB :=
  if db.users.any (fun u => u.username == username) then (false, db)
  else (true, { db with users := db.users ++ [⟨username, hash password, "user"⟩] })

/-- `verify_user`: `SELECT * FROM users WHERE username=? AND password=?`
with the hashed supplied password; `fetchone` gives the first match. -/
def verify_user (hash : String → String) (db : DB) (username password : String) :
    Option UserRec :=
  db.users.find? (fun u => u.username == username && u.password == hash password)

/-- The "Set New Password" handler:
`UPDATE users SET password=? WHERE username=?` with the hashed new password. -/
def reset_password (hash : String → String) (db : DB) (username newPassword : String) :
    DB :=
  { db with users := db.users.map (fun u =>
      if u.username == username then { u with password := hash newPassword } else u) }

/-- `get_records`: `SELECT * FROM records WHERE owner_username=?`. -/
def get_records (db : DB) (owner : String) : List RecordRow :=
  db.records.filter (fun r => r.owner_username == owner)

/-- The rows satisfying `owner_username=? AND payee=?`, in table order. -/
def pairRecords (db : DB) (owner payee : String) : List RecordRow :=
  db.records.filter (fun r => r.owner_username == owner && r.payee == payee)

/-- The row of maximal `id` in a list, if any (`ORDER BY id DESC LIMIT 1`). -/
def maxById : List RecordRow → Option RecordRow
  | [] => none
  | r :: rest =>
      match maxById rest with
      | none => some r
      | some b => if b.id < r.id then some r else some b

/-- `SELECT * FROM records WHERE owner_username=? AND payee=? ORDER BY id DESC LIMIT 1`:
the matching row of highest insertion id. -/
def lastRecordFor (db : DB) (owner payee : String) : Option RecordRow :=
  maxById (pairRecords db owner payee)

/-- `update_record`: read the latest-by-id prior row of the (owner, payee)
pair, seed the running totals from its columns 7 and 6 (or 0 and 0 when
absent), clamp the new balance at zero, and append one new row.  `now` is
the already-formatted timestamp string. -/
def update_record (db : DB) (owner : String) (received paid_out : Rat)
    (payee note now : String) : DB :=
  let last_record := lastRecordFor db owner payee
  let prev_total_received := match last_record with
    | some r => r.total_received
    | none => 0
  let prev_total_paid := match last_record with
    | some r => r.total_paid
    | none => 0
  let ntr := prev_total_received + received - paid_out
  let new_total_received := if ntr < 0 then 0 else ntr
  let new_total_paid := prev_total_paid + paid_out
  { db with
      records := db.records ++
        [⟨db.nextId, owner, received, paid_out, now, payee,
          new_total_paid, new_total_received, note⟩],
      nextId := db.nextId + 1 }

/-- `delete_record_by_id`: `DELETE FROM records WHERE id=?`. -/
def delete_record_by_id (db : DB) (record_id : Nat) : DB :=
  { db with records := db.records.filter (fun r => r.id != record_id) }

/-- `delete_all_by_payee`: `DELETE FROM records WHERE owner_username=? AND payee=?`. -/
def delete_all_by_payee (db : DB) (owner payee : String) : DB :=
  { db with records := db.records.filter (fun r =>
      !(r.owner_username == owner && r.payee == payee)) }

/-- `delete_user`: `DELETE FROM users WHERE username=?` then
`DELETE FROM records WHERE owner_username=?`. -/
def delete_user (db : DB) (username : String) : DB :=
  { db with
      users := db.users.filter (fun u => u.username != username),
      records := db.records.filter (fun r => r.owner_username != username) }

/-- One row of the pandas DataFrame built by `generate_csv`
(`{"Payee", "Received", "Paid", "Balance", "Total Paid", "Date", "Note"}`). -/
structure CsvRow where
  payee : String
  received : Rat
  paid : Rat
  balance : Rat
  total_paid : Rat
  date : String
  note : String
deriving DecidableEq

/-- `SELECT payee FROM records WHERE owner_username=? GROUP BY payee`:
the distinct payees of the owner's rows. -/
def distinctPayees (db : DB) (username : String) : List String :=
  ((db.records.filter (fun r => r.owner_username == username)).map
    (fun r => r.payee)).dedup

/-- `ORDER BY datetime ASC` on the `TEXT` timestamp column (lexicographic,
which is chronological for the `YYYY-MM-DD HH:MM:SS` format). -/
def sortByDatetime (l : List RecordRow) : List RecordRow :=
  l.insertionSort (fun a b => a.datetime ≤ b.datetime)

/-- The body of the `for r in recs` loop of `generate_csv`: accumulate the
unclamped `total_received += received - paid` and `total_paid += paid` and
emit one row per record.  `acc = (total_received, total_paid)` so far. -/
def csvRows (payee : String) (acc : Rat × Rat) : List RecordRow → List CsvRow
  | [] => []
  | r :: rest =>
      let received := r.received
      let paid := r.paid_out
      let total_received := acc.1 + received - paid
      let total_paid := acc.2 + paid
      ⟨payee, received, paid, total_received, total_paid, r.datetime, r.note⟩ ::
        csvRows payee (total_received, total_paid) rest

/-- The rows `generate_csv` emits for one payee: the pair's records in
timestamp order, totals restarted at `(0, 0)`. -/
def payeeRows (db : DB) (username payee : String) : List CsvRow :=
  csvRows payee (0, 0) (sortByDatetime (pairRecords db username payee))

/-- The full `all_data` list of `generate_csv`: the per-payee row blocks
concatenated over the distinct payees. -/
def generate_csv_rows (db : DB) (username : String) : List CsvRow :=
  (distinctPayees db username).flatMap (payeeRows db username)

/-- Approximate pandas rendering of a float cell (`100.0`, `-50.0`, …).
No theorem depends on this rendering. -/
def ratStr (q : Rat) : String :=
  if q.den = 1 then toString q.num ++ ".0" else toString q

/-- Minimal CSV quoting of a text cell, as pandas `QUOTE_MINIMAL` does. -/
def quoteField (s : String) : String :=
  if s.any (fun ch => ch == ',' || ch == '"' || ch == '\n') then
    "\"" ++ (s.foldl (fun acc ch =>
      if ch == '"' then acc ++ "\"\"" else acc.push ch) "") ++ "\""
  else s

/-- The CSV header line of the export schema. -/
def csvHeader : String := "Payee,Received,Paid,Balance,Total Paid,Date,Note\n"

/-- One CSV line of the export. -/
def csvLine (row : CsvRow) : String :=
  quoteField row.payee ++ "," ++ ratStr row.received ++ "," ++ ratStr row.paid ++
    "," ++ ratStr row.balance ++ "," ++ ratStr row.total_paid ++ "," ++
    quoteField row.date ++ "," ++ quoteField row.note ++ "\n"

/-- `generate_csv`: build `all_data` and render it with
`pd.DataFrame(all_data).to_csv(index=False)`.  An empty frame has no
columns, so pandas emits a single newline and in particular no header. -/
def generate_csv (db : DB) (username : String) : String :=
  let rows := generate_csv_rows db username
  if rows.isEmpty then "\n"
  else csvHeader ++ String.join (rows.map csvLine)

/-- The "My Record" per-payee summary:
`SELECT SUM(received), SUM(paid_out) FROM records WHERE owner_username=? AND payee=?`,
displayed as `SUM(received) - SUM(paid_out)`. -/
def payee_summary_balance (db : DB) (owner payee : String) : Rat :=
  ((pairRecords db owner payee).map (fun r => r.received)).sum -
    ((pairRecords db owner payee).map (fun r => r.paid_out)).sum

/-- A batch of sequential `update_record` calls for one (owner, payee)
pair: each list element is `(received, paid_out, timestamp)`; the note is
left empty (it plays no role in any total). -/
def applyUpdates (db : DB) (owner payee : String) :
    List (Rat × Rat × String) → DB
  | [] => db
  | (r, p, t) :: rest =>
      applyUpdates (update_record db owner r p payee "" t) owner payee rest

/-- The rows a batch of `update_record` calls appends, computed purely:
ids count up from `startId` and the running totals thread through
`acc = (total_received, total_paid)` with the same clamp as the code. -/
def newEntries (owner payee : String) (startId : Nat) (acc : Rat × Rat) :
    List (Rat × Rat × String) → List RecordRow
  | [] => []
  | (r, p, t) :: rest =>
      let ntr := acc.1 + r - p
      let bal := if ntr < 0 then 0 else ntr
      let tp := acc.2 + p
      ⟨startId, owner, r, p, t, payee, tp, bal, ""⟩ ::
        newEntries owner payee (startId + 1) (bal, tp) rest

/-- Whether the floor-at-zero clamp fires at some step of a batch,
starting from balance `acc`. -/
def clampFired (acc : Rat) : List (Rat × Rat × String) → Bool
  | [] => false
  | (r, p, _) :: rest =>
      let ntr := acc + r - p
      (decide (ntr < 0)) || clampFired (if ntr < 0 then 0 else ntr) rest

/-- Every stored row id is below the autoincrement counter — the basic
well-formedness the `AUTOINCREMENT` column guarantees. -/
def IdBound (db : DB) : Prop :=
  ∀ r ∈ db.records, r.id < db.nextId

/-- The database states reachable from a fresh file through the store's
own operations. -/
inductive Reachable (hash : String → String) : DB → Prop where
  | empty : Reachable hash DB.empty
  | ensureAdmin {db : DB} : Reachable hash db → Reachable hash (ensure_admin hash db)
  | addUser {db : DB} (u p : String) : Reachable hash db →
      Reachable hash (add_user hash db u p).2
  | resetPassword {db : DB} (u p : String) : Reachable hash db →
      Reachable hash (reset_password hash db u p)
  | updateRecord {db : DB} (o : String) (r pd : Rat) (p n t : String) :
      Reachable hash db → Reachable hash (update_record db o r pd p n t)
  | deleteRecordById {db : DB} (i : Nat) : Reachable hash db →
      Reachable hash (delete_record_by_id db i)
  | deleteAllByPayee {db : DB} (o p : String) : Reachable hash db →
      Reachable hash (delete_all_by_payee db o p)
  | deleteUser {db : DB} (u : String) : Reachable hash db →
      Reachable hash (delete_user db u)

/-- Rewrite a row's timestamp, leaving every other column alone. -/
def mapDatetimeRow (f : String → String) (r : RecordRow) : RecordRow :=
  { r with datetime := f r.datetime }

/-- Rewrite every stored timestamp of the records table. -/
def mapDatetime (f : String → String) (db : DB) : DB :=
  { db with records := db.records.map (mapDatetimeRow f) }

/-- Overwrite a row's stored running columns (`total_paid`, `total_received`),
leaving every other column alone. -/
def mapStoredRow (f : Rat × Rat → Rat × Rat) (r : RecordRow) : RecordRow :=
  { r with total_paid := (f (r.total_paid, r.total_received)).1,
           total_received := (f (r.total_paid, r.total_received)).2 }

/-- Overwrite the stored running columns of every row of the records table. -/
def mapStored (f : Rat × Rat → Rat × Rat) (db : DB) : DB :=
  { db with records := db.records.map (mapStoredRow f) }

/-- The unclamped running net balances of a record list, starting from
`acc`: what `generate_csv` recomputes for the Balance column. -/
def netPrefixSums (acc : Rat) : List RecordRow → List Rat
  | [] => []
  | r :: rest =>
      (acc + r.received - r.paid_out) ::
        netPrefixSums (acc + r.received - r.paid_out) rest

/-- A concrete injective stand-in for `hash_password` used by the closed
example theorems. -/
def exHash (s : String) : String := "#" ++ s

/-- The single row `update_record` inserts (spelled out so theorems can
name it). -/
def insertedRow (db : DB) (owner : String) (received paid_out : Rat)
    (payee note now : String) : RecordRow :=
  let last_record := lastRecordFor db owner payee
  let prev_total_received := match last_record with
    | some r => r.total_received
    | none => 0
  let prev_total_paid := match last_record with
    | some r => r.total_paid
    | none => 0
  let ntr := prev_total_received + received - paid_out
  ⟨db.nextId, owner, received, paid_out, now, payee,
    prev_total_paid + paid_out, if ntr < 0 then 0 else ntr, note⟩

/-- The `(running_balance, running_total_paid)` seed `update_record` reads:
the stored totals of the latest-by-id row of the pair, or `(0, 0)`. -/
def seedTotals (db : DB) (owner payee : String) : Rat × Rat :=
  match lastRecordFor db owner payee with
  | some r => (r.total_received, r.total_paid)
  | none => (0, 0)

/-- The raw net amount of a batch: `sum received - sum paid`. -/
def netSum (amts : List (Rat × Rat × String)) : Rat :=
  (amts.map (fun a => a.1)).sum - (amts.map (fun a => a.2.1)).sum

/-- Example database: alice receives 100 from bob, then pays bob 150 —
the state of the clamped-versus-aggregate divergence scenario. -/
def exDB2 : DB := applyUpdates DB.empty "alice" "bob"
  [(100, 0, "t1"), (0, 150, "t2")]

/-- Example database reaching a state where the username `admin` is held
by a role-`user` account: bootstrap, store-level delete of `admin`, then
signup of a fresh `admin`. -/
def exDB9 : DB :=
  (add_user exHash (delete_user (ensure_admin exHash DB.empty) "admin") "admin" "p1").2

/-! ### Basic lemmas about the maximal-id selection and the append -/

theorem clamp_eq_max (x : Rat) : (if x < 0 then 0 else x) = max 0 x := by
  rcases lt_or_le x 0 with h | h
  · simp [h, max_eq_left h.le]
  · simp [not_lt.mpr h, max_eq_right h]

theorem maxById_eq_none {l : List RecordRow} (h : maxById l = none) : l = [] := by
  cases l with
  | nil => rfl
  | cons x xs =>
      exfalso
      simp only [maxById] at h
      cases hx : maxById xs with
      | none => rw [hx] at h; exact Option.noConfusion h
      | some c =>
          rw [hx] at h
          have h2 : (if c.id < x.id then some x else some c) = none := h
          split at h2 <;> simp at h2

theorem maxById_mem {l : List RecordRow} {b : RecordRow} (h : maxById l = some b) :
    b ∈ l := by
  induction l generalizing b with
  | nil => simp [maxById] at h
  | cons x xs ih =>
      simp only [maxById] at h
      cases hx : maxById xs with
      | none => rw [hx] at h; simp only [Option.some.injEq] at h; simp [h]
      | some c =>
          rw [hx] at h
          by_cases hid : c.id < x.id
          · simp only [if_pos hid, Option.some.injEq] at h; simp [h]
          · simp only [if_neg hid, Option.some.injEq] at h
            exact List.mem_cons_of_mem x (h ▸ ih hx)

theorem maxById_le {l : List RecordRow} {b : RecordRow} (h : maxById l = some b) :
    ∀ r ∈ l, r.id ≤ b.id := by
  induction l generalizing b with
  | nil => simp [maxById] at h
  | cons x xs ih =>
      simp only [maxById] at h
      cases hx : maxById xs with
      | none =>
          rw [hx] at h
          simp only [Option.some.injEq] at h
          have hxs : xs = [] := maxById_eq_none hx
          subst hxs
          intro r hr
          simp only [List.mem_singleton] at hr
          simp [hr, h]
      | some c =>
          rw [hx] at h
          intro r hr
          rcases List.mem_cons.mp hr with hr | hr
          · by_cases hid : c.id < x.id
            · simp only [if_pos hid, Option.some.injEq] at h; simp [hr, h]
            · simp only [if_neg hid, Option.some.injEq] at h
              subst h; exact hr ▸ not_lt.mp hid
          · have hrc := ih hx r hr
            by_cases hid : c.id < x.id
            · simp only [if_pos hid, Option.some.injEq] at h
              exact h ▸ le_of_lt (lt_of_le_of_lt hrc hid)
            · simp only [if_neg hid, Option.some.injEq] at h
              exact h ▸ hrc

theorem maxById_append {l : List RecordRow} {e : RecordRow}
    (h : ∀ r ∈ l, r.id < e.id) : maxById (l ++ [e]) = some e := by
  induction l with
  | nil => rfl
  | cons x xs ih =>
      have hx : x.id < e.id := h x (List.mem_cons_self x xs)
      have ih2 := ih (fun r hr => h r (List.mem_cons_of_mem x hr))
      have e1 : maxById ((x :: xs) ++ [e]) =
          match maxById (xs ++ [e]) with
          | none => some x
          | some b => if b.id < x.id then some x else some b := rfl
      rw [e1, ih2]
      exact if_neg (not_lt.mpr hx.le)

/-! ### `update_record` structure -/

theorem update_record_records (db : DB) (o : String) (r pd : Rat) (p n t : String) :
    (update_record db o r pd p n t).records = db.records ++ [insertedRow db o r pd p n t] :=
  rfl

theorem update_record_users (db : DB) (o : String) (r pd : Rat) (p n t : String) :
    (update_record db o r pd p n t).users = db.users :=
  rfl

theorem update_record_nextId (db : DB) (o : String) (r pd : Rat) (p n t : String) :
    (update_record db o r pd p n t).nextId = db.nextId + 1 :=
  rfl

theorem insertedRow_id (db : DB) (o : String) (r pd : Rat) (p n t : String) :
    (insertedRow db o r pd p n t).id = db.nextId :=
  rfl

theorem insertedRow_totals (db : DB) (o : String) (r pd : Rat) (p n t : String) :
    (insertedRow db o r pd p n t).total_received =
        max 0 ((seedTotals db o p).1 + r - pd) ∧
      (insertedRow db o r pd p n t).total_paid = (seedTotals db o p).2 + pd := by
  unfold insertedRow seedTotals
  cases lastRecordFor db o p <;> exact ⟨clamp_eq_max _, rfl⟩

theorem pairRecords_sub (db : DB) (o p : String) :
    ∀ q ∈ pairRecords db o p, q ∈ db.records := by
  intro q hq
  exact (List.mem_filter.mp hq).1

theorem pairRecords_update_self (db : DB) (o : String) (r pd : Rat) (p n t : String) :
    pairRecords (update_record db o r pd p n t) o p =
      pairRecords db o p ++ [insertedRow db o r pd p n t] := by
  unfold pairRecords
  rw [update_record_records, List.filter_append]
  congr 1
  simp [insertedRow]

theorem pairRecords_update_other (db : DB) (o : String) (r pd : Rat) (p n t o2 p2 : String)
    (h : ¬(o2 = o ∧ p2 = p)) :
    pairRecords (update_record db o r pd p n t) o2 p2 = pairRecords db o2 p2 := by
  unfold pairRecords
  rw [update_record_records, List.filter_append]
  have hfalse : ((insertedRow db o r pd p n t).owner_username == o2 &&
      (insertedRow db o r pd p n t).payee == p2) = false := by
    show (o == o2 && p == p2) = false
    rcases not_and_or.mp h with h2 | h2
    · have ho : (o == o2) = false := beq_eq_false_iff_ne.mpr (fun he => h2 he.symm)
      simp [ho]
    · have hp : (p == p2) = false := beq_eq_false_iff_ne.mpr (fun he => h2 he.symm)
      simp [hp]
  simp [List.filter_cons, hfalse]

theorem idBound_update (db : DB) (o : String) (r pd : Rat) (p n t : String)
    (hb : IdBound db) : IdBound (update_record db o r pd p n t) := by
  intro q hq
  rw [update_record_records] at hq
  rw [update_record_nextId]
  rcases List.mem_append.mp hq with hq | hq
  · exact Nat.lt_succ_of_lt (hb q hq)
  · simp only [List.mem_singleton] at hq
    subst hq
    rw [insertedRow_id]
    exact Nat.lt_succ_self _

theorem lastRecordFor_update_self (db : DB) (o : String) (r pd : Rat) (p n t : String)
    (hb : IdBound db) :
    lastRecordFor (update_record db o r pd p n t) o p = some (insertedRow db o r pd p n t) := by
  unfold lastRecordFor
  rw [pairRecords_update_self]
  apply maxById_append
  intro q hq
  rw [insertedRow_id]
  exact hb q (pairRecords_sub db o p q hq)

theorem seedTotals_update_self (db : DB) (o : String) (r pd : Rat) (p n t : String)
    (hb : IdBound db) :
    seedTotals (update_record db o r pd p n t) o p =
      ((insertedRow db o r pd p n t).total_received, (insertedRow db o r pd p n t).total_paid) := by
  unfold seedTotals
  rw [lastRecordFor_update_self db o r pd p n t hb]

/-! ### A batch of updates, characterised purely -/

theorem newEntries_cons_seed (db : DB) (o p : String) (r pd : Rat) (t : String)
    (rest : List (Rat × Rat × String)) :
    newEntries o p db.nextId (seedTotals db o p) ((r, pd, t) :: rest) =
      insertedRow db o r pd p "" t ::
        newEntries o p (db.nextId + 1)
          ((insertedRow db o r pd p "" t).total_received,
            (insertedRow db o r pd p "" t).total_paid) rest := by
  cases hl : lastRecordFor db o p <;>
    simp only [newEntries, insertedRow, seedTotals, hl]

theorem applyUpdates_records (o p : String) :
    ∀ (amts : List (Rat × Rat × String)) (db : DB), IdBound db →
      (applyUpdates db o p amts).records =
          db.records ++ newEntries o p db.nextId (seedTotals db o p) amts ∧
        (applyUpdates db o p amts).nextId = db.nextId + amts.length := by
  intro amts
  induction amts with
  | nil => intro db hb; simp [applyUpdates, newEntries]
  | cons a rest ih =>
      intro db hb
      obtain ⟨r, pd, t⟩ := a
      have hbu := idBound_update db o r pd p "" t hb
      obtain ⟨ih1, ih2⟩ := ih (update_record db o r pd p "" t) hbu
      have hstep : applyUpdates db o p ((r, pd, t) :: rest) =
          applyUpdates (update_record db o r pd p "" t) o p rest := rfl
      constructor
      · rw [hstep, ih1, update_record_records, update_record_nextId,
          seedTotals_update_self db o r pd p "" t hb, List.append_assoc,
          newEntries_cons_seed]
        rfl
      · rw [hstep, ih2, update_record_nextId, List.length_cons]
        omega

theorem newEntries_fields (o p : String) :
    ∀ (amts : List (Rat × Rat × String)) (s : Nat) (acc : Rat × Rat),
      ∀ e ∈ newEntries o p s acc amts,
        e.owner_username = o ∧ e.payee = p ∧ s ≤ e.id := by
  intro amts
  induction amts with
  | nil => intro s acc e he; simp [newEntries] at he
  | cons a rest ih =>
      intro s acc e he
      obtain ⟨r, pd, t⟩ := a
      rw [newEntries] at he
      rcases List.mem_cons.mp he with he | he
      · subst he; exact ⟨rfl, rfl, le_refl s⟩
      · obtain ⟨h1, h2, h3⟩ := ih (s + 1) _ e he
        exact ⟨h1, h2, le_of_lt (Nat.lt_of_succ_le h3)⟩

theorem newEntries_map_amounts (o p : String) :
    ∀ (amts : List (Rat × Rat × String)) (s : Nat) (acc : Rat × Rat),
      (newEntries o p s acc amts).map (fun e => (e.received, e.paid_out)) =
        amts.map (fun a => (a.1, a.2.1)) := by
  intro amts
  induction amts with
  | nil => intro s acc; rfl
  | cons a rest ih =>
      intro s acc
      obtain ⟨r, pd, t⟩ := a
      rw [newEntries, List.map_cons, List.map_cons, ih]

theorem newEntries_last (o p : String) :
    ∀ (amts : List (Rat × Rat × String)) (s : Nat) (acc : Rat × Rat), amts ≠ [] →
      ∃ e, maxById (newEntries o p s acc amts) = some e ∧
        e.total_received = amts.foldl (fun b a => max 0 (b + a.1 - a.2.1)) acc.1 ∧
        e.total_paid = acc.2 + (amts.map (fun a => a.2.1)).sum := by
  intro amts
  induction amts with
  | nil => intro s acc h; exact absurd rfl h
  | cons a rest ih =>
      intro s acc _
      obtain ⟨r, pd, t⟩ := a
      by_cases hrest : rest = []
      · subst hrest
        refine ⟨_, rfl, ?_, ?_⟩
        · show (if acc.1 + r - pd < 0 then 0 else acc.1 + r - pd) = _
          rw [clamp_eq_max]
          rfl
        · show acc.2 + pd = acc.2 + ((pd : Rat) + 0)
          ring
      · obtain ⟨e, he, h1, h2⟩ :=
          ih (s + 1) (if acc.1 + r - pd < 0 then 0 else acc.1 + r - pd, acc.2 + pd) hrest
        refine ⟨e, ?_, ?_, ?_⟩
        · have hle : s + 1 ≤ e.id :=
            (newEntries_fields o p rest (s + 1) _ e (maxById_mem he)).2.2
          have hgt : ¬ e.id < s := by omega
          simp only [newEntries, maxById, he, hgt, if_false]
        · rw [h1, List.foldl_cons]
          congr 1
          show (if acc.1 + r - pd < 0 then 0 else acc.1 + r - pd) =
            0 ⊔ (acc.1 + (r, pd, t).1 - (r, pd, t).2.1)
          rw [clamp_eq_max]
        · rw [h2, List.map_cons, List.sum_cons]
          show acc.2 + pd + (List.map (fun a => a.2.1) rest).sum =
            acc.2 + (pd + (List.map (fun a => a.2.1) rest).sum)
          ring

theorem newEntries_filter_self (o p : String) (amts : List (Rat × Rat × String))
    (s : Nat) (acc : Rat × Rat) :
    (newEntries o p s acc amts).filter
      (fun q => q.owner_username == o && q.payee == p) = newEntries o p s acc amts := by
  apply List.filter_eq_self.mpr
  intro e he
  obtain ⟨h1, h2, _⟩ := newEntries_fields o p amts s acc e he
  simp [h1, h2]

theorem pairRecords_applyUpdates (db : DB) (o p : String)
    (amts : List (Rat × Rat × String)) (hb : IdBound db) :
    pairRecords (applyUpdates db o p amts) o p =
      pairRecords db o p ++ newEntries o p db.nextId (seedTotals db o p) amts := by
  have h := (applyUpdates_records o p amts db hb).1
  unfold pairRecords at h ⊢
  rw [h, List.filter_append, newEntries_filter_self]

theorem lastRecordFor_applyUpdates_empty (db : DB) (o p : String)
    (amts : List (Rat × Rat × String)) (hb : IdBound db)
    (hemp : pairRecords db o p = []) (hne : amts ≠ []) :
    ∃ e, lastRecordFor (applyUpdates db o p amts) o p = some e ∧
      e.total_received = amts.foldl (fun acc a => max 0 (acc + a.1 - a.2.1)) 0 ∧
      e.total_paid = (amts.map (fun a => a.2.1)).sum := by
  have hseed : seedTotals db o p = (0, 0) := by
    unfold seedTotals lastRecordFor
    rw [hemp]
    rfl
  obtain ⟨e, he, h1, h2⟩ := newEntries_last o p amts db.nextId (0, 0) hne
  refine ⟨e, ?_, ?_, ?_⟩
  · unfold lastRecordFor
    rw [pairRecords_applyUpdates db o p amts hb, hemp, hseed, List.nil_append]
    exact he
  · exact h1
  · rw [h2]
    exact zero_add _

/-! ### Claim C1 -/

/-- C1: for every owner and payee, after a batch of sequential
`update_record` calls with nonnegative amounts starting from a state with
no entries for the pair, the stored `running_balance` of the last
inserted entry is the left fold of `acc ↦ max 0 (acc + received - paid)`
over the batch starting at 0, and its stored `running_total_paid` is the
sum of the paid amounts; in particular the batch 100/0, 0/150, 20/0
stores running balances 100, 0, 20 and paid totals 0, 150, 150. -/
theorem update_record_running_totals :
    (∀ (db : DB) (o p : String) (amts : List (Rat × Rat × String)),
        IdBound db → pairRecords db o p = [] → amts ≠ [] →
        (∀ a ∈ amts, 0 ≤ a.1 ∧ 0 ≤ a.2.1) →
        ∃ e, lastRecordFor (applyUpdates db o p amts) o p = some e ∧
          e.total_received = amts.foldl (fun acc a => max 0 (acc + a.1 - a.2.1)) 0 ∧
          e.total_paid = (amts.map (fun a => a.2.1)).sum) ∧
      (applyUpdates DB.empty "alice" "bob"
          [(100, 0, "d1"), (0, 150, "d2"), (20, 0, "d3")]).records.map
        (fun e => (e.total_received, e.total_paid)) = [(100, 0), (0, 150), (20, 150)] := by
  constructor
  · intro db o p amts hb hemp hne _
    exact lastRecordFor_applyUpdates_empty db o p amts hb hemp hne
  · simp [applyUpdates, update_record, lastRecordFor, pairRecords, maxById, DB.empty]
    norm_num

/-- Witness for C1 at the concrete three-step example of the claim. -/
theorem update_record_running_totals_witness :
    ∃ e, lastRecordFor (applyUpdates DB.empty "alice" "bob"
        [(100, 0, "d1"), (0, 150, "d2"), (20, 0, "d3")]) "alice" "bob" = some e ∧
      e.total_received = [((100 : Rat), (0 : Rat), "d1"), (0, 150, "d2"), (20, 0, "d3")].foldl
        (fun acc a => max 0 (acc + a.1 - a.2.1)) 0 ∧
      e.total_paid = ([((100 : Rat), (0 : Rat), "d1"), (0, 150, "d2"),
        (20, 0, "d3")].map (fun a => a.2.1)).sum :=
  update_record_running_totals.1 DB.empty "alice" "bob"
    [(100, 0, "d1"), (0, 150, "d2"), (20, 0, "d3")]
    (fun r hr => absurd hr (List.not_mem_nil r))
    rfl
    (List.cons_ne_nil _ _)
    (by decide)

/-! ### Claim C2 -/

theorem maxById_map_datetime (f : String → String) :
    ∀ l : List RecordRow,
      maxById (l.map (mapDatetimeRow f)) = (maxById l).map (mapDatetimeRow f) := by
  intro l
  induction l with
  | nil => rfl
  | cons x xs ih =>
      simp only [List.map_cons, maxById, ih]
      cases maxById xs with
      | none => rfl
      | some b =>
          by_cases h : b.id < x.id <;> simp [mapDatetimeRow, h]

theorem pairRecords_mapDatetime (f : String → String) (db : DB) (o p : String) :
    pairRecords (mapDatetime f db) o p = (pairRecords db o p).map (mapDatetimeRow f) := by
  show ((db.records.map (mapDatetimeRow f)).filter fun q =>
      q.owner_username == o && q.payee == p) = _
  rw [List.filter_map]
  rfl

/-- C2: the prior entry whose stored totals seed a new `update_record`
entry is the one with the highest id among the pair's entries (seeds 0, 0
when there is none), and the selection reads no timestamp: it commutes
with every rewrite of the stored timestamps. -/
theorem update_record_seed_max_id (db : DB) (o : String) (r pd : Rat) (p n t : String) :
    (∀ e, lastRecordFor db o p = some e →
        e ∈ pairRecords db o p ∧ (∀ q ∈ pairRecords db o p, q.id ≤ e.id) ∧
        (update_record db o r pd p n t).records = db.records ++
          [⟨db.nextId, o, r, pd, t, p, e.total_paid + pd,
            max 0 (e.total_received + r - pd), n⟩]) ∧
      (lastRecordFor db o p = none →
        pairRecords db o p = [] ∧
        (update_record db o r pd p n t).records = db.records ++
          [⟨db.nextId, o, r, pd, t, p, 0 + pd, max 0 (0 + r - pd), n⟩]) ∧
      (∀ f, lastRecordFor (mapDatetime f db) o p =
        (lastRecordFor db o p).map (mapDatetimeRow f)) := by
  refine ⟨?_, ?_, ?_⟩
  · intro e he
    refine ⟨maxById_mem he, maxById_le he, ?_⟩
    rw [update_record_records]
    congr 1
    unfold insertedRow
    rw [show lastRecordFor db o p = some e from he]
    simp only [clamp_eq_max]
  · intro he
    refine ⟨maxById_eq_none he, ?_⟩
    rw [update_record_records]
    congr 1
    unfold insertedRow
    rw [show lastRecordFor db o p = none from he]
    simp only [clamp_eq_max]
  · intro f
    unfold lastRecordFor
    rw [pairRecords_mapDatetime]
    exact maxById_map_datetime f (pairRecords db o p)

/-- Witness for C2 on a backdated history: the pair's entry of id 2
carries an earlier timestamp than the entry of id 1, and it is still the
id-2 entry that seeds the new entry. -/
theorem update_record_seed_max_id_witness :
    let e2 : RecordRow := ⟨2, "alice", 50, 0, "2024-01-01 10:00:00", "bob", 0, 150, ""⟩
    let db : DB := ⟨[], [⟨1, "alice", 100, 0, "2024-05-01 10:00:00", "bob", 0, 100, ""⟩, e2], 3⟩
    e2 ∈ pairRecords db "alice" "bob" ∧
      (∀ q ∈ pairRecords db "alice" "bob", q.id ≤ e2.id) ∧
      (update_record db "alice" 5 0 "bob" "" "2024-09-09 09:00:00").records = db.records ++
        [⟨db.nextId, "alice", 5, 0, "2024-09-09 09:00:00", "bob", e2.total_paid + 0,
          max 0 (e2.total_received + 5 - 0), ""⟩] :=
  (update_record_seed_max_id _ "alice" 5 0 "bob" "" "2024-09-09 09:00:00").1 _ rfl

/-! ### Claim C5 -/

/-- C5: `update_record` appends exactly one row and leaves every existing
row (and the users table) unchanged; the delete operations restrict the
records table to a filter — an order-preserving sublist of the old rows,
each surviving row identical to before — and no other store operation
touches the records table at all. -/
theorem store_ops_frame (db : DB) :
    (∀ (o : String) (r pd : Rat) (p n t : String),
        (update_record db o r pd p n t).records =
            db.records ++ [insertedRow db o r pd p n t] ∧
          (update_record db o r pd p n t).users = db.users) ∧
      (∀ i, (delete_record_by_id db i).records = db.records.filter (fun q => q.id != i) ∧
        List.Sublist (delete_record_by_id db i).records db.records ∧
        (delete_record_by_id db i).users = db.users) ∧
      (∀ o p, (delete_all_by_payee db o p).records =
            db.records.filter (fun q => !(q.owner_username == o && q.payee == p)) ∧
          List.Sublist (delete_all_by_payee db o p).records db.records ∧
          (delete_all_by_payee db o p).users = db.users) ∧
      (∀ u, (delete_user db u).records =
            db.records.filter (fun q => q.owner_username != u) ∧
          List.Sublist (delete_user db u).records db.records) ∧
      (∀ (hash : String → String) (u pw : String),
        (add_user hash db u pw).2.records = db.records) ∧
      (∀ (hash : String → String) (u pw : String),
        (reset_password hash db u pw).records = db.records) ∧
      (∀ hash : String → String, (ensure_admin hash db).records = db.records) := by
  refine ⟨fun o r pd p n t => ⟨update_record_records db o r pd p n t, rfl⟩,
    fun i => ⟨rfl, List.filter_sublist _, rfl⟩,
    fun o p => ⟨rfl, List.filter_sublist _, rfl⟩,
    fun u => ⟨rfl, List.filter_sublist _⟩,
    fun hash u pw => ?_, fun hash u pw => rfl, fun hash => ?_⟩
  · unfold add_user
    split <;> rfl
  · unfold ensure_admin
    split
    · rfl
    · split <;> rfl

/-! ### Claim C6 -/

/-- C6: `add_user` on an absent username succeeds and stores the hash of
the password with role `"user"`; on a present username it fails and
returns the database unchanged, whatever the password. -/
theorem add_user_duplicate (hash : String → String) (db : DB) (u p1 : String)
    (habs : ∀ x ∈ db.users, x.username ≠ u) :
    add_user hash db u p1 =
        (true, { db with users := db.users ++ [⟨u, hash p1, "user"⟩] }) ∧
      ∀ (db2 : DB) (p2 : String), (∃ x ∈ db2.users, x.username = u) →
        add_user hash db2 u p2 = (false, db2) := by
  constructor
  · have hany : (db.users.any fun x => x.username == u) = false := by
      rw [Bool.eq_false_iff]
      intro hcon
      obtain ⟨x, hx, hbeq⟩ := List.any_eq_true.mp hcon
      exact habs x hx (beq_iff_eq.mp hbeq)
    simp [add_user, hany]
  · intro db2 p2 hex
    obtain ⟨x, hx, hxu⟩ := hex
    have hany : (db2.users.any fun y => y.username == u) = true :=
      List.any_eq_true.mpr ⟨x, hx, beq_iff_eq.mpr hxu⟩
    simp [add_user, hany]

/-- Witness for C6: signing up `alice` on an empty store succeeds; a
second signup with a different password fails and changes nothing. -/
theorem add_user_duplicate_witness :
    add_user exHash DB.empty "alice" "pw1" =
        (true, { DB.empty with users := DB.empty.users ++ [⟨"alice", exHash "pw1", "user"⟩] }) ∧
      add_user exHash { DB.empty with users := [⟨"alice", exHash "pw1", "user"⟩] } "alice" "pw2" =
        (false, { DB.empty with users := [⟨"alice", exHash "pw1", "user"⟩] }) :=
  ⟨(add_user_duplicate exHash DB.empty "alice" "pw1"
      (fun x hx => absurd hx (List.not_mem_nil x))).1,
    (add_user_duplicate exHash DB.empty "alice" "pw1"
      (fun x hx => absurd hx (List.not_mem_nil x))).2
      { DB.empty with users := [⟨"alice", exHash "pw1", "user"⟩] } "pw2"
      ⟨⟨"alice", exHash "pw1", "user"⟩, List.mem_singleton_self _, rfl⟩⟩

/-! ### Claim C7 -/

theorem find_map_reset (hash : String → String) (users : List UserRec)
    (u newp u2 p2 : String) (hne : u2 ≠ u) :
    (users.map (fun x =>
        if x.username == u then { x with password := hash newp } else x)).find?
        (fun x => x.username == u2 && x.password == hash p2) =
      users.find? (fun x => x.username == u2 && x.password == hash p2) := by
  induction users with
  | nil => rfl
  | cons y ys ih =>
      simp only [List.map_cons]
      by_cases hy : y.username = u
      · have h1 : (y.username == u) = true := beq_iff_eq.mpr hy
        have h2 : (y.username == u2) = false :=
          beq_eq_false_iff_ne.mpr (fun he => hne (he.symm.trans hy))
        have hpredL : ¬(({ y with password := hash newp } : UserRec).username == u2 &&
            ({ y with password := hash newp } : UserRec).password == hash p2) = true := by
          simp [h2]
        have hpredR : ¬((y.username == u2 && y.password == hash p2) = true) := by
          simp [h2]
        rw [if_pos h1,
          @List.find?_cons_of_neg UserRec (fun x => x.username == u2 && x.password == hash p2)
            { y with password := hash newp } _ hpredL,
          @List.find?_cons_of_neg UserRec (fun x => x.username == u2 && x.password == hash p2)
            y _ hpredR, ih]
      · have h1 : (y.username == u) = false := beq_eq_false_iff_ne.mpr hy
        rw [if_neg (by simp [h1])]
        cases hp : (y.username == u2 && y.password == hash p2) with
        | true =>
            rw [@List.find?_cons_of_pos UserRec
                (fun x => x.username == u2 && x.password == hash p2) y _ hp,
              @List.find?_cons_of_pos UserRec
                (fun x => x.username == u2 && x.password == hash p2) y _ hp]
        | false =>
            rw [@List.find?_cons_of_neg UserRec
                (fun x => x.username == u2 && x.password == hash p2) y _ (by simp [hp]),
              @List.find?_cons_of_neg UserRec
                (fun x => x.username == u2 && x.password == hash p2) y _ (by simp [hp]), ih]

/-- C7: `verify_user` matches iff some stored user has the given username
and the hash of the supplied password; after `reset_password` on an
existing username, any password hashing differently from the new one no
longer matches, the new password matches, and every other username's
verification outcome is unchanged. -/
theorem verify_user_reset_password (hash : String → String) (db : DB) (u pw : String) :
    ((verify_user hash db u pw).isSome ↔
        ∃ x ∈ db.users, x.username = u ∧ x.password = hash pw) ∧
      ∀ newp : String, (∃ x ∈ db.users, x.username = u) →
        (∀ oldp : String, hash oldp ≠ hash newp →
          verify_user hash (reset_password hash db u newp) u oldp = none) ∧
        (verify_user hash (reset_password hash db u newp) u newp).isSome ∧
        (∀ u2 p2 : String, u2 ≠ u →
          verify_user hash (reset_password hash db u newp) u2 p2 =
            verify_user hash db u2 p2) := by
  constructor
  · rw [verify_user, List.find?_isSome]
    constructor
    · rintro ⟨x, hx, hpred⟩
      rw [Bool.and_eq_true, beq_iff_eq, beq_iff_eq] at hpred
      exact ⟨x, hx, hpred⟩
    · rintro ⟨x, hx, h1, h2⟩
      exact ⟨x, hx, by rw [Bool.and_eq_true, beq_iff_eq, beq_iff_eq]; exact ⟨h1, h2⟩⟩
  · intro newp hex
    refine ⟨?_, ?_, ?_⟩
    · intro oldp hh
      rw [verify_user, List.find?_eq_none]
      intro x hx
      rw [reset_password] at hx
      simp only [List.mem_map] at hx
      obtain ⟨y, _, hxy⟩ := hx
      by_cases hy : y.username = u
      · rw [if_pos (beq_iff_eq.mpr hy)] at hxy
        subst hxy
        simp [beq_eq_false_iff_ne.mpr (Ne.symm hh)]
      · rw [if_neg (by simp [beq_eq_false_iff_ne.mpr hy])] at hxy
        subst hxy
        simp [beq_eq_false_iff_ne.mpr hy]
    · obtain ⟨x, hx, hxu⟩ := hex
      rw [verify_user, List.find?_isSome]
      refine ⟨{ x with password := hash newp }, ?_, ?_⟩
      · rw [reset_password]
        simp only [List.mem_map]
        exact ⟨x, hx, by rw [if_pos (beq_iff_eq.mpr hxu)]⟩
      · show (x.username == u && hash newp == hash newp) = true
        simp [beq_iff_eq.mpr hxu]
    · intro u2 p2 hne
      rw [verify_user, verify_user, reset_password]
      exact find_map_reset hash db.users u newp u2 p2 hne

/-- Witness for C7: with `alice` stored under the hash of `pw1`, the
match predicate is satisfied; after resetting to `pw2`, `pw1` no longer
verifies, `pw2` does, and `bob`'s outcome is untouched. -/
theorem verify_user_reset_password_witness :
    let db : DB := ⟨[⟨"alice", exHash "pw1", "user"⟩], [], 1⟩
    ((verify_user exHash db "alice" "pw1").isSome ↔
        ∃ x ∈ db.users, x.username = "alice" ∧ x.password = exHash "pw1") ∧
      verify_user exHash (reset_password exHash db "alice" "pw2") "alice" "pw1" = none ∧
      (verify_user exHash (reset_password exHash db "alice" "pw2") "alice" "pw2").isSome ∧
      verify_user exHash (reset_password exHash db "alice" "pw2") "bob" "pwx" =
        verify_user exHash db "bob" "pwx" := by
  refine ⟨(verify_user_reset_password exHash _ "alice" "pw1").1, ?_⟩
  obtain ⟨h1, h2, h3⟩ := (verify_user_reset_password exHash
      ⟨[⟨"alice", exHash "pw1", "user"⟩], [], 1⟩ "alice" "pw1").2 "pw2"
    ⟨⟨"alice", exHash "pw1", "user"⟩, List.mem_singleton_self _, rfl⟩
  exact ⟨h1 "pw1" (by decide), h2, h3 "bob" "pwx" (by decide)⟩

/-! ### Claim C8 -/

/-- C8: `delete_user u` removes exactly the user named `u` and exactly
the ledger rows owned by `u`: what remains are order-preserving sublists,
and membership afterwards is membership before plus not belonging to `u`. -/
theorem delete_user_cascade (db : DB) (u : String) :
    (delete_user db u).users = db.users.filter (fun x => x.username != u) ∧
      (delete_user db u).records = db.records.filter (fun q => q.owner_username != u) ∧
      (∀ x, x ∈ (delete_user db u).users ↔ x ∈ db.users ∧ x.username ≠ u) ∧
      (∀ q, q ∈ (delete_user db u).records ↔ q ∈ db.records ∧ q.owner_username ≠ u) ∧
      List.Sublist (delete_user db u).users db.users ∧
      List.Sublist (delete_user db u).records db.records := by
  refine ⟨rfl, rfl, ?_, ?_, List.filter_sublist _, List.filter_sublist _⟩
  · intro x
    show x ∈ db.users.filter (fun y => y.username != u) ↔ _
    rw [List.mem_filter, bne_iff_ne]
  · intro q
    show q ∈ db.records.filter (fun y => y.owner_username != u) ↔ _
    rw [List.mem_filter, bne_iff_ne]

/-! ### Claim C3 -/

theorem csvRows_payee_eq (P : String) :
    ∀ (l : List RecordRow) (acc : Rat × Rat), ∀ w ∈ csvRows P acc l, w.payee = P := by
  intro l
  induction l with
  | nil => intro acc w hw; simp [csvRows] at hw
  | cons r rest ih =>
      intro acc w hw
      rw [csvRows] at hw
      rcases List.mem_cons.mp hw with hw | hw
      · subst hw; rfl
      · exact ih _ w hw

theorem csvRows_map_balance (P : String) :
    ∀ (l : List RecordRow) (acc : Rat × Rat),
      (csvRows P acc l).map (fun w => w.balance) = netPrefixSums acc.1 l := by
  intro l
  induction l with
  | nil => intro acc; rfl
  | cons r rest ih =>
      intro acc
      rw [csvRows, netPrefixSums, List.map_cons, ih]

theorem flatMap_payee_filter (db : DB) (o P : String) :
    ∀ l : List String, l.Nodup →
      ((l.flatMap (payeeRows db o)).filter (fun w => w.payee == P)) =
        if P ∈ l then payeeRows db o P else [] := by
  intro l
  induction l with
  | nil => simp
  | cons Q l2 ih =>
      intro hnd
      rw [List.flatMap_cons, List.filter_append,
        ih (List.nodup_cons.mp hnd).2]
      by_cases hQ : Q = P
      · subst hQ
        have h1 : (payeeRows db o Q).filter (fun w => w.payee == Q) = payeeRows db o Q :=
          List.filter_eq_self.mpr (fun w hw =>
            beq_iff_eq.mpr (csvRows_payee_eq Q _ _ w hw))
        have h2 : Q ∉ l2 := (List.nodup_cons.mp hnd).1
        rw [h1, if_neg h2, if_pos (List.mem_cons_self Q l2), List.append_nil]
      · have h1 : (payeeRows db o Q).filter (fun w => w.payee == P) = [] := by
          rw [List.filter_eq_nil_iff]
          intro w hw
          rw [csvRows_payee_eq Q _ _ w hw]
          simp [beq_eq_false_iff_ne.mpr hQ]
        rw [h1, List.nil_append]
        by_cases hP : P ∈ l2
        · rw [if_pos hP, if_pos (List.mem_cons_of_mem Q hP)]
        · rw [if_neg hP, if_neg (by
            rw [List.mem_cons]
            rintro (h | h)
            · exact hQ h.symm
            · exact hP h)]

theorem pairRecords_eq_nil_iff (db : DB) (o P : String) :
    pairRecords db o P = [] ↔ P ∉ distinctPayees db o := by
  unfold pairRecords distinctPayees
  rw [List.filter_eq_nil_iff, List.mem_dedup, List.mem_map]
  constructor
  · rintro h ⟨r, hr, hrP⟩
    have := h r (List.mem_filter.mp hr).1
    rw [Bool.and_eq_true, beq_iff_eq, beq_iff_eq] at this
    exact this ⟨beq_iff_eq.mp (List.mem_filter.mp hr).2, hrP⟩
  · intro h r hr hpred
    rw [Bool.and_eq_true, beq_iff_eq, beq_iff_eq] at hpred
    exact h ⟨r, List.mem_filter.mpr ⟨hr, beq_iff_eq.mpr hpred.1⟩, hpred.2⟩

theorem pairRecords_mapStored (f : Rat × Rat → Rat × Rat) (db : DB) (o p : String) :
    pairRecords (mapStored f db) o p = (pairRecords db o p).map (mapStoredRow f) := by
  show ((db.records.map (mapStoredRow f)).filter fun q =>
      q.owner_username == o && q.payee == p) = _
  rw [List.filter_map]
  rfl

theorem distinctPayees_mapStored (f : Rat × Rat → Rat × Rat) (db : DB) (o : String) :
    distinctPayees (mapStored f db) o = distinctPayees db o := by
  show (((db.records.map (mapStoredRow f)).filter fun q =>
      q.owner_username == o).map fun q => q.payee).dedup = _
  rw [List.filter_map, List.map_map]
  rfl

theorem orderedInsert_datetime_mapStored (f : Rat × Rat → Rat × Rat) (a : RecordRow) :
    ∀ l : List RecordRow,
      List.orderedInsert (fun x y : RecordRow => x.datetime ≤ y.datetime)
          (mapStoredRow f a) (l.map (mapStoredRow f)) =
        (List.orderedInsert (fun x y : RecordRow => x.datetime ≤ y.datetime) a l).map
          (mapStoredRow f) := by
  intro l
  induction l with
  | nil => rfl
  | cons x xs ih =>
      simp only [List.map_cons, List.orderedInsert, mapStoredRow]
      by_cases h : a.datetime ≤ x.datetime
      · rw [if_pos h, if_pos h]
        rfl
      · rw [if_neg h, if_neg h, List.map_cons]
        simp only [mapStoredRow] at ih
        rw [ih]
        rfl

theorem sortByDatetime_mapStored (f : Rat × Rat → Rat × Rat) :
    ∀ l : List RecordRow,
      sortByDatetime (l.map (mapStoredRow f)) = (sortByDatetime l).map (mapStoredRow f) := by
  intro l
  induction l with
  | nil => rfl
  | cons x xs ih =>
      show List.orderedInsert _ (mapStoredRow f x) (sortByDatetime (xs.map (mapStoredRow f))) = _
      rw [ih]
      exact orderedInsert_datetime_mapStored f x (sortByDatetime xs)

theorem csvRows_mapStored (f : Rat × Rat → Rat × Rat) (P : String) :
    ∀ (l : List RecordRow) (acc : Rat × Rat),
      csvRows P acc (l.map (mapStoredRow f)) = csvRows P acc l := by
  intro l
  induction l with
  | nil => intro acc; rfl
  | cons r rest ih =>
      intro acc
      rw [List.map_cons, csvRows, csvRows, ih]
      rfl

theorem payeeRows_mapStored (f : Rat × Rat → Rat × Rat) (db : DB) (o : String) :
    payeeRows (mapStored f db) o = payeeRows db o := by
  funext P
  unfold payeeRows
  rw [pairRecords_mapStored, sortByDatetime_mapStored, csvRows_mapStored]

theorem generate_csv_rows_mapStored (f : Rat × Rat → Rat × Rat) (db : DB) (o : String) :
    generate_csv_rows (mapStored f db) o = generate_csv_rows db o := by
  unfold generate_csv_rows
  rw [distinctPayees_mapStored, payeeRows_mapStored]

/-- C3: the CSV export recomputes each payee's Balance column as the
plain running received-minus-paid over the payee's entries in timestamp
order — reading none of the stored running columns (rewriting them all
changes nothing) and applying no floor-at-zero clamp — so exported
balances can be negative: after recording received 100 then paid 150 the
export shows balances 100, −50 while the stored running balance of the
second entry is 0. -/
theorem generate_csv_unclamped :
    (∀ (f : Rat × Rat → Rat × Rat) (db : DB) (o : String),
        generate_csv_rows (mapStored f db) o = generate_csv_rows db o) ∧
      (∀ (db : DB) (o P : String),
        ((generate_csv_rows db o).filter (fun w => w.payee == P)).map (fun w => w.balance) =
          netPrefixSums 0 (sortByDatetime (pairRecords db o P))) ∧
      (generate_csv_rows exDB2 "alice").map (fun w => w.balance) = [100, -50] ∧
      (lastRecordFor exDB2 "alice" "bob").map (fun e => e.total_received) = some 0 := by
  refine ⟨generate_csv_rows_mapStored, ?_, ?_, ?_⟩
  · intro db o P
    unfold generate_csv_rows
    rw [flatMap_payee_filter db o P (distinctPayees db o)
      (show (distinctPayees db o).Nodup from List.nodup_dedup _)]
    by_cases hP : P ∈ distinctPayees db o
    · rw [if_pos hP]
      unfold payeeRows
      exact csvRows_map_balance P _ (0, 0)
    · rw [if_neg hP, (pairRecords_eq_nil_iff db o P).mpr hP]
      rfl
  · simp [exDB2, applyUpdates, update_record, generate_csv_rows, distinctPayees, payeeRows,
      csvRows, sortByDatetime, List.insertionSort, List.orderedInsert, pairRecords,
      lastRecordFor, maxById, DB.empty]
    norm_num
  · simp [exDB2, applyUpdates, update_record, pairRecords, lastRecordFor, maxById, DB.empty]
    norm_num

/-! ### Claim C10 -/

/-- C10: for an owner with no ledger rows the export is the pandas
rendering of an empty frame — a single newline with no data rows — which
in particular never contains the documented header line
`Payee,Received,Paid,Balance,Total Paid,Date,Note`. -/
theorem generate_csv_empty_history (db : DB) (o : String)
    (h : get_records db o = []) :
    generate_csv_rows db o = [] ∧ generate_csv db o = "\n" ∧
      ∀ s t : List Char, s ++ csvHeader.data ++ t ≠ (generate_csv db o).data := by
  have hrows : generate_csv_rows db o = [] := by
    unfold generate_csv_rows
    have hd : distinctPayees db o = [] := by
      show ((get_records db o).map (fun r => r.payee)).dedup = []
      rw [h]
      rfl
    rw [hd]
    rfl
  have hcsv : generate_csv db o = "\n" := by
    unfold generate_csv
    rw [hrows]
    rfl
  refine ⟨hrows, hcsv, ?_⟩
  intro s t hcon
  rw [hcsv] at hcon
  have hlen := congrArg List.length hcon
  rw [List.length_append, List.length_append] at hlen
  have h47 : 1 < csvHeader.data.length := by decide
  have h1 : ("\n").data.length = 1 := rfl
  omega

/-- Witness for C10 at a user with no records in the fresh database. -/
theorem generate_csv_empty_history_witness :
    generate_csv_rows DB.empty "zed" = [] ∧ generate_csv DB.empty "zed" = "\n" ∧
      ∀ s t : List Char, s ++ csvHeader.data ++ t ≠ (generate_csv DB.empty "zed").data :=
  generate_csv_empty_history DB.empty "zed" rfl

/-! ### Claim C4 -/

theorem netSum_nil : netSum [] = 0 := by
  unfold netSum
  simp

theorem netSum_cons (r pd : Rat) (t : String) (rest : List (Rat × Rat × String)) :
    netSum ((r, pd, t) :: rest) = (r - pd) + netSum rest := by
  unfold netSum
  simp only [List.map_cons, List.sum_cons]
  ring

theorem foldClamp_le_of_le :
    ∀ (amts : List (Rat × Rat × String)) (a b : Rat), b ≤ a →
      b + netSum amts ≤ amts.foldl (fun acc x => max 0 (acc + x.1 - x.2.1)) a := by
  intro amts
  induction amts with
  | nil => intro a b h; rw [netSum_nil]; simpa using h
  | cons x rest ih =>
      intro a b h
      obtain ⟨r, pd, t⟩ := x
      rw [netSum_cons, List.foldl_cons]
      have h2 : b + r - pd ≤ max 0 (a + r - pd) :=
        le_trans (by linarith) (le_max_right _ _)
      have h3 := ih (max 0 (a + r - pd)) (b + r - pd) h2
      calc b + ((r - pd) + netSum rest) = (b + r - pd) + netSum rest := by ring
        _ ≤ List.foldl (fun acc x => max 0 (acc + x.1 - x.2.1)) (max 0 (a + r - pd)) rest := h3
        _ = _ := rfl

theorem foldClamp_lt_of_lt :
    ∀ (amts : List (Rat × Rat × String)) (a b : Rat), b < a →
      b + netSum amts < amts.foldl (fun acc x => max 0 (acc + x.1 - x.2.1)) a := by
  intro amts
  induction amts with
  | nil => intro a b h; rw [netSum_nil]; simpa using h
  | cons x rest ih =>
      intro a b h
      obtain ⟨r, pd, t⟩ := x
      rw [netSum_cons, List.foldl_cons]
      have h2 : b + r - pd < max 0 (a + r - pd) :=
        lt_of_lt_of_le (by linarith) (le_max_right _ _)
      have h3 := ih (max 0 (a + r - pd)) (b + r - pd) h2
      calc b + ((r - pd) + netSum rest) = (b + r - pd) + netSum rest := by ring
        _ < List.foldl (fun acc x => max 0 (acc + x.1 - x.2.1)) (max 0 (a + r - pd)) rest := h3
        _ = _ := rfl

theorem clampFired_false_fold :
    ∀ (amts : List (Rat × Rat × String)) (a : Rat), clampFired a amts = false →
      amts.foldl (fun acc x => max 0 (acc + x.1 - x.2.1)) a = a + netSum amts := by
  intro amts
  induction amts with
  | nil => intro a _; rw [netSum_nil, add_zero]; rfl
  | cons x rest ih =>
      intro a h
      obtain ⟨r, pd, t⟩ := x
      rw [clampFired] at h
      rw [Bool.or_eq_false_iff] at h
      obtain ⟨h1, h2⟩ := h
      have hnot : ¬(a + r - pd < 0) := by
        intro hcon
        rw [decide_eq_true hcon] at h1
        exact Bool.noConfusion h1
      rw [if_neg hnot] at h2
      rw [netSum_cons, List.foldl_cons]
      have hmax : max 0 (a + r - pd) = a + r - pd := max_eq_right (not_lt.mp hnot)
      calc List.foldl (fun acc x => max 0 (acc + x.1 - x.2.1))
            (max 0 (a + (r, pd, t).1 - (r, pd, t).2.1)) rest
          = List.foldl (fun acc x => max 0 (acc + x.1 - x.2.1)) (a + r - pd) rest := by
            rw [show (a + (r, pd, t).1 - (r, pd, t).2.1) = a + r - pd from rfl, hmax]
        _ = (a + r - pd) + netSum rest := ih (a + r - pd) h2
        _ = a + ((r - pd) + netSum rest) := by ring

theorem clampFired_true_fold :
    ∀ (amts : List (Rat × Rat × String)) (a : Rat), clampFired a amts = true →
      a + netSum amts < amts.foldl (fun acc x => max 0 (acc + x.1 - x.2.1)) a := by
  intro amts
  induction amts with
  | nil => intro a h; rw [clampFired] at h; exact absurd h Bool.false_ne_true
  | cons x rest ih =>
      intro a h
      obtain ⟨r, pd, t⟩ := x
      rw [clampFired] at h
      rw [netSum_cons, List.foldl_cons]
      by_cases hlt : a + r - pd < 0
      · have hz : max 0 (a + r - pd) = 0 := max_eq_left (le_of_lt hlt)
        have hge := foldClamp_le_of_le rest 0 0 (le_refl 0)
        rw [zero_add] at hge
        calc a + ((r - pd) + netSum rest) = (a + r - pd) + netSum rest := by ring
          _ < 0 + netSum rest := by linarith
          _ = netSum rest := zero_add _
          _ ≤ List.foldl (fun acc x => max 0 (acc + x.1 - x.2.1)) 0 rest := hge
          _ = List.foldl (fun acc x => max 0 (acc + x.1 - x.2.1))
              (max 0 (a + (r, pd, t).1 - (r, pd, t).2.1)) rest := by
                rw [show (a + (r, pd, t).1 - (r, pd, t).2.1) = a + r - pd from rfl, hz]
      · have h2 : clampFired (a + r - pd) rest = true := by
          rw [decide_eq_false hlt, Bool.false_or, if_neg hlt] at h
          exact h
        have h3 := ih (a + r - pd) h2
        have hmax : max 0 (a + r - pd) = a + r - pd := max_eq_right (not_lt.mp hlt)
        calc a + ((r - pd) + netSum rest) = (a + r - pd) + netSum rest := by ring
          _ < List.foldl (fun acc x => max 0 (acc + x.1 - x.2.1)) (a + r - pd) rest := h3
          _ = List.foldl (fun acc x => max 0 (acc + x.1 - x.2.1))
              (max 0 (a + (r, pd, t).1 - (r, pd, t).2.1)) rest := by
                rw [show (a + (r, pd, t).1 - (r, pd, t).2.1) = a + r - pd from rfl, hmax]

theorem foldClamp_ne_iff (amts : List (Rat × Rat × String)) :
    amts.foldl (fun acc x => max 0 (acc + x.1 - x.2.1)) 0 ≠ netSum amts ↔
      clampFired 0 amts = true := by
  constructor
  · intro hne
    by_contra hb
    rw [Bool.not_eq_true] at hb
    refine hne ?_
    rw [clampFired_false_fold amts 0 hb, zero_add]
  · intro ht
    have := clampFired_true_fold amts 0 ht
    rw [zero_add] at this
    exact (ne_of_gt this)

theorem newEntries_map_received (o p : String) :
    ∀ (amts : List (Rat × Rat × String)) (s : Nat) (acc : Rat × Rat),
      (newEntries o p s acc amts).map (fun e => e.received) = amts.map (fun a => a.1) := by
  intro amts
  induction amts with
  | nil => intro s acc; rfl
  | cons a rest ih =>
      intro s acc
      obtain ⟨r, pd, t⟩ := a
      rw [newEntries, List.map_cons, List.map_cons, ih]

theorem newEntries_map_paid (o p : String) :
    ∀ (amts : List (Rat × Rat × String)) (s : Nat) (acc : Rat × Rat),
      (newEntries o p s acc amts).map (fun e => e.paid_out) = amts.map (fun a => a.2.1) := by
  intro amts
  induction amts with
  | nil => intro s acc; rfl
  | cons a rest ih =>
      intro s acc
      obtain ⟨r, pd, t⟩ := a
      rw [newEntries, List.map_cons, List.map_cons, ih]

theorem payee_summary_applyUpdates (db : DB) (o p : String)
    (amts : List (Rat × Rat × String)) (hb : IdBound db)
    (hemp : pairRecords db o p = []) :
    payee_summary_balance (applyUpdates db o p amts) o p = netSum amts := by
  unfold payee_summary_balance netSum
  rw [pairRecords_applyUpdates db o p amts hb, hemp, List.nil_append,
    newEntries_map_received, newEntries_map_paid]

/-- C4: there is a reachable state (alice received 100 from bob, then
paid bob 150) where the `SUM(received) - SUM(paid_out)` display aggregate
for the pair is −50 while the stored `running_balance` of the pair's
highest-id entry is 0; and in general, for a pair history built from
scratch, the aggregate differs from the stored running balance exactly
when the floor-at-zero clamp fired at some intermediate step. -/
theorem aggregate_vs_stored_divergence :
    (Reachable exHash exDB2 ∧ payee_summary_balance exDB2 "alice" "bob" = -50 ∧
        (lastRecordFor exDB2 "alice" "bob").map (fun e => e.total_received) = some 0) ∧
      (∀ (db : DB) (o p : String) (amts : List (Rat × Rat × String)),
        IdBound db → pairRecords db o p = [] → amts ≠ [] →
        ((lastRecordFor (applyUpdates db o p amts) o p).map (fun e => e.total_received) ≠
            some (payee_summary_balance (applyUpdates db o p amts) o p) ↔
          clampFired 0 amts = true)) := by
  constructor
  · refine ⟨?_, ?_, ?_⟩
    · exact Reachable.updateRecord "alice" 0 150 "bob" "" "t2"
        (Reachable.updateRecord "alice" 100 0 "bob" "" "t1" Reachable.empty)
    · simp [exDB2, applyUpdates, update_record, payee_summary_balance, pairRecords,
        lastRecordFor, maxById, DB.empty]
      norm_num
    · simp [exDB2, applyUpdates, update_record, pairRecords, lastRecordFor, maxById, DB.empty]
      norm_num
  · intro db o p amts hb hemp hne
    obtain ⟨e, he, h1, h2⟩ := lastRecordFor_applyUpdates_empty db o p amts hb hemp hne
    rw [he, payee_summary_applyUpdates db o p amts hb hemp]
    show some e.total_received ≠ some (netSum amts) ↔ clampFired 0 amts = true
    rw [h1, ne_eq, Option.some.injEq]
    exact foldClamp_ne_iff amts

/-- Witness for C4's general part at the concrete divergence history:
received 100 then paid 150 from an empty store. -/
theorem aggregate_vs_stored_divergence_witness :
    (lastRecordFor (applyUpdates DB.empty "alice" "bob" [(100, 0, "t1"), (0, 150, "t2")])
          "alice" "bob").map (fun e => e.total_received) ≠
        some (payee_summary_balance
          (applyUpdates DB.empty "alice" "bob" [(100, 0, "t1"), (0, 150, "t2")]) "alice" "bob") ↔
      clampFired 0 [((100 : Rat), (0 : Rat), "t1"), (0, 150, "t2")] = true :=
  aggregate_vs_stored_divergence.2 DB.empty "alice" "bob" [(100, 0, "t1"), (0, 150, "t2")]
    (fun r hr => absurd hr (List.not_mem_nil r))
    rfl
    (List.cons_ne_nil _ _)

/-! ### Claim C9 -/

theorem users_map_preserves (unm newp : String) (l : List UserRec) :
    ((l.map (fun u => if u.username == unm then { u with password := newp } else u)).map
        (fun u => u.username) = l.map (fun u => u.username)) ∧
      ∀ v ∈ l.map (fun u => if u.username == unm then { u with password := newp } else u),
        ∃ u ∈ l, v.username = u.username ∧ v.role = u.role := by
  constructor
  · rw [List.map_map]
    apply List.map_congr_left
    intro u _
    by_cases h : (u.username == unm) = true
    · show (if u.username == unm then ({ u with password := newp } : UserRec)
        else u).username = u.username
      rw [if_pos h]
    · show (if u.username == unm then ({ u with password := newp } : UserRec)
        else u).username = u.username
      rw [if_neg h]
  · intro v hv
    obtain ⟨u, hu, hvu⟩ := List.mem_map.mp hv
    refine ⟨u, hu, ?_⟩
    by_cases h : (u.username == unm) = true
    · rw [if_pos h] at hvu
      subst hvu
      exact ⟨rfl, rfl⟩
    · rw [if_neg h] at hvu
      subst hvu
      exact ⟨rfl, rfl⟩

theorem reachable_users_inv (hash : String → String) {db : DB} (h : Reachable hash db) :
    (db.users.map (fun u => u.username)).Nodup ∧
      ∀ u ∈ db.users, u.role = "admin" → u.username = "admin" := by
  induction h with
  | empty => exact ⟨List.nodup_nil, fun u hu => absurd hu (List.not_mem_nil u)⟩
  | @ensureAdmin db2 hprev ih =>
      obtain ⟨ihn, ihr⟩ := ih
      unfold ensure_admin
      split
      · next hf =>
          constructor
          · rw [show ({ db2 with users := db2.users ++
                [(⟨"admin", hash "vinsolit", "admin"⟩ : UserRec)] } : DB).users =
                db2.users ++ [(⟨"admin", hash "vinsolit", "admin"⟩ : UserRec)] from rfl,
              List.map_append, List.nodup_append]
            refine ⟨ihn, List.nodup_singleton _, ?_⟩
            rw [show (List.map (fun u => u.username)
                [(⟨"admin", hash "vinsolit", "admin"⟩ : UserRec)]) = ["admin"] from rfl,
              List.disjoint_singleton]
            intro hcon
            obtain ⟨u, hu, huname⟩ := List.mem_map.mp hcon
            exact absurd (beq_iff_eq.mpr huname) (List.find?_eq_none.mp hf u hu)
          · intro u hu hrole
            rcases List.mem_append.mp hu with hu | hu
            · exact ihr u hu hrole
            · rw [List.mem_singleton] at hu
              subst hu
              rfl
      · next a hf =>
          by_cases hpw : (a.password == "vinsolit") = true
          · rw [if_pos hpw]
            obtain ⟨hmap, hmem⟩ := users_map_preserves "admin" (hash "vinsolit") db2.users
            constructor
            · show ((db2.users.map (fun u =>
                if u.username == "admin" then { u with password := hash "vinsolit" }
                else u)).map (fun u => u.username)).Nodup
              rw [hmap]
              exact ihn
            · intro v hv hrole
              obtain ⟨u, hu, h1, h2⟩ := hmem v hv
              rw [h1]
              exact ihr u hu (h2 ▸ hrole)
          · rw [if_neg hpw]
            exact ⟨ihn, ihr⟩
  | @addUser db2 u p hprev ih =>
      obtain ⟨ihn, ihr⟩ := ih
      unfold add_user
      by_cases hany : (db2.users.any fun x => x.username == u) = true
      · rw [if_pos hany]
        exact ⟨ihn, ihr⟩
      · rw [if_neg hany]
        constructor
        · show ((db2.users ++ [(⟨u, hash p, "user"⟩ : UserRec)]).map
            (fun x => x.username)).Nodup
          rw [List.map_append, List.nodup_append]
          refine ⟨ihn, List.nodup_singleton _, ?_⟩
          rw [show (List.map (fun x => x.username) [(⟨u, hash p, "user"⟩ : UserRec)]) = [u]
              from rfl, List.disjoint_singleton]
          intro hcon
          obtain ⟨x, hx, hxu⟩ := List.mem_map.mp hcon
          exact hany (List.any_eq_true.mpr ⟨x, hx, beq_iff_eq.mpr hxu⟩)
        · intro x hx hrole
          rcases List.mem_append.mp hx with hx | hx
          · exact ihr x hx hrole
          · rw [List.mem_singleton] at hx
            subst hx
            have hur : ("user" : String) ≠ "admin" := by decide
            exact absurd hrole hur
  | @resetPassword db2 u p hprev ih =>
      obtain ⟨ihn, ihr⟩ := ih
      obtain ⟨hmap, hmem⟩ := users_map_preserves u (hash p) db2.users
      constructor
      · show ((db2.users.map (fun x =>
          if x.username == u then { x with password := hash p } else x)).map
            (fun x => x.username)).Nodup
        rw [hmap]
        exact ihn
      · intro v hv hrole
        obtain ⟨x, hx, h1, h2⟩ := hmem v hv
        rw [h1]
        exact ihr x hx (h2 ▸ hrole)
  | @updateRecord db2 o r pd p n t hprev ih => exact ih
  | @deleteRecordById db2 i hprev ih => exact ih
  | @deleteAllByPayee db2 o p hprev ih => exact ih
  | @deleteUser db2 u hprev ih =>
      obtain ⟨ihn, ihr⟩ := ih
      constructor
      · exact List.Nodup.sublist (List.Sublist.map _ (List.filter_sublist _)) ihn
      · intro x hx hrole
        exact ihr x (List.mem_filter.mp hx).1 hrole

theorem ensure_admin_clean (hash : String → String) (db : DB)
    (hclean : ∀ u ∈ db.users, u.username = "admin" → u.role = "admin") :
    ∀ u ∈ (ensure_admin hash db).users, u.username = "admin" → u.role = "admin" := by
  unfold ensure_admin
  split
  · next hf =>
      intro u hu hname
      rcases List.mem_append.mp hu with hu | hu
      · exact hclean u hu hname
      · rw [List.mem_singleton] at hu
        subst hu
        rfl
  · next a hf =>
      by_cases hpw : (a.password == "vinsolit") = true
      · rw [if_pos hpw]
        intro v hv hname
        obtain ⟨x, hx, h1, h2⟩ :=
          (users_map_preserves "admin" (hash "vinsolit") db.users).2 v hv
        rw [h2]
        exact hclean x hx (h1 ▸ hname)
      · rw [if_neg hpw]
        exact hclean

theorem ensure_admin_exists_admin (hash : String → String) (db : DB) :
    ∃ a ∈ (ensure_admin hash db).users, a.username = "admin" := by
  unfold ensure_admin
  split
  · next hf =>
      exact ⟨⟨"admin", hash "vinsolit", "admin"⟩,
        List.mem_append.mpr (Or.inr (List.mem_singleton_self _)), rfl⟩
  · next a hf =>
      have hmem := List.mem_of_find?_eq_some hf
      have hname : a.username = "admin" := by
        have h2 := List.find?_some hf
        simp only [beq_iff_eq] at h2
        exact h2
      by_cases hpw : (a.password == "vinsolit") = true
      · rw [if_pos hpw]
        refine ⟨{ a with password := hash "vinsolit" }, ?_, hname⟩
        have hga : (fun u : UserRec => if u.username == "admin"
            then { u with password := hash "vinsolit" } else u) a =
            { a with password := hash "vinsolit" } := by
          show (if a.username == "admin" then ({ a with password := hash "vinsolit" } : UserRec)
            else a) = { a with password := hash "vinsolit" }
          rw [if_pos (beq_iff_eq.mpr hname)]
        exact hga ▸ List.mem_map_of_mem _ hmem
      · rw [if_neg hpw]
        exact ⟨a, hmem, hname⟩

theorem ensure_admin_rehash (hash : String → String) (db : DB)
    (hnodup : (db.users.map (fun u => u.username)).Nodup) :
    ∀ a ∈ db.users, a.username = "admin" → a.password = "vinsolit" →
      ∃ a2 ∈ (ensure_admin hash db).users,
        a2.username = "admin" ∧ a2.password = hash "vinsolit" := by
  intro a0 ha0 hname0 hpw0
  unfold ensure_admin
  split
  · next hf =>
      exact absurd (beq_iff_eq.mpr hname0) (List.find?_eq_none.mp hf a0 ha0)
  · next a hf =>
      have hmem := List.mem_of_find?_eq_some hf
      have hname : a.username = "admin" := by
        have h2 := List.find?_some hf
        simp only [beq_iff_eq] at h2
        exact h2
      have heq : a = a0 := List.inj_on_of_nodup_map hnodup hmem ha0 (by rw [hname, hname0])
      have hpw : (a.password == "vinsolit") = true := beq_iff_eq.mpr (heq ▸ hpw0)
      rw [if_pos hpw]
      refine ⟨{ a with password := hash "vinsolit" }, ?_, hname, rfl⟩
      have hga : (fun u : UserRec => if u.username == "admin"
          then { u with password := hash "vinsolit" } else u) a =
          { a with password := hash "vinsolit" } := by
        show (if a.username == "admin" then ({ a with password := hash "vinsolit" } : UserRec)
          else a) = { a with password := hash "vinsolit" }
        rw [if_pos (beq_iff_eq.mpr hname)]
      exact hga ▸ List.mem_map_of_mem _ hmem

theorem admin_role_count (l : List UserRec)
    (hnodup : (l.map (fun u => u.username)).Nodup)
    (hinv : ∀ u ∈ l, u.role = "admin" → u.username = "admin") :
    (l.filter (fun u => u.role == "admin")).length ≤ 1 ∧
      ((∀ u ∈ l, u.username = "admin" → u.role = "admin") →
        (∃ a ∈ l, a.username = "admin") →
        (l.filter (fun u => u.role == "admin")).length = 1) := by
  have hcount : (l.filter (fun u => u.username == "admin")).length =
      List.count "admin" (l.map (fun u => u.username)) := by
    rw [← List.countP_eq_length_filter]
    show _ = List.countP (fun s => s == "admin") (l.map fun u => u.username)
    rw [List.countP_map]
    rfl
  constructor
  · calc (l.filter (fun u => u.role == "admin")).length
        = List.countP (fun u => u.role == "admin") l :=
          (List.countP_eq_length_filter _ _).symm
      _ ≤ List.countP (fun u => u.username == "admin") l :=
          List.countP_mono_left
            (fun u hu hp => beq_iff_eq.mpr (hinv u hu (beq_iff_eq.mp hp)))
      _ = (l.filter (fun u => u.username == "admin")).length :=
          List.countP_eq_length_filter _ _
      _ = List.count "admin" (l.map fun u => u.username) := hcount
      _ ≤ 1 := List.nodup_iff_count_le_one.mp hnodup "admin"
  · intro hclean hex
    obtain ⟨a, ha, haname⟩ := hex
    have hfe : l.filter (fun u => u.role == "admin") =
        l.filter (fun u => u.username == "admin") := by
      apply List.filter_congr
      intro u hu
      by_cases hn : u.username = "admin"
      · rw [beq_iff_eq.mpr (hclean u hu hn), beq_iff_eq.mpr hn]
      · have h1 : (u.role == "admin") = false :=
          beq_eq_false_iff_ne.mpr (fun hr => hn (hinv u hu hr))
        have h2 : (u.username == "admin") = false := beq_eq_false_iff_ne.mpr hn
        rw [h1, h2]
    rw [hfe, hcount]
    exact List.count_eq_one_of_mem hnodup (List.mem_map.mpr ⟨a, ha, haname⟩)

/-- C9 counterexample: the claim "exactly one admin-role account exists
after `ensure_admin` on any reachable users relation" fails.  Reachable
state: bootstrap, store-level `delete_user("admin")`, then signup of a
fresh `admin` (role `user`).  Running `ensure_admin` leaves that account
alone (its stored credential is not the plaintext default), so zero
admin-role accounts exist. -/
theorem ensure_admin_counterexample :
    Reachable exHash exDB9 ∧
      (ensure_admin exHash exDB9).users = [⟨"admin", exHash "p1", "user"⟩] ∧
      ((ensure_admin exHash exDB9).users.filter (fun u => u.role == "admin")).length ≠ 1 := by
  refine ⟨?_, ?_, ?_⟩
  · exact Reachable.addUser "admin" "p1"
      (Reachable.deleteUser "admin" (Reachable.ensureAdmin Reachable.empty))
  · decide
  · decide

/-- C9 amended: after `ensure_admin` on a reachable state, at most one
admin-role account exists and an account named `admin` always exists; if
no non-admin-role account already occupies the username `admin`, exactly
one admin-role account exists; and an `admin` account stored with the
legacy plaintext credential is rehashed in place. -/
theorem ensure_admin_amended (hash : String → String) (db : DB) (hr : Reachable hash db) :
    ((ensure_admin hash db).users.filter (fun u => u.role == "admin")).length ≤ 1 ∧
      (∃ a ∈ (ensure_admin hash db).users, a.username = "admin") ∧
      ((∀ u ∈ db.users, u.username = "admin" → u.role = "admin") →
        ((ensure_admin hash db).users.filter (fun u => u.role == "admin")).length = 1) ∧
      (∀ a ∈ db.users, a.username = "admin" → a.password = "vinsolit" →
        ∃ a2 ∈ (ensure_admin hash db).users,
          a2.username = "admin" ∧ a2.password = hash "vinsolit") := by
  obtain ⟨hp_nodup, hp_inv⟩ := reachable_users_inv hash (Reachable.ensureAdmin hr)
  obtain ⟨hnodup, _⟩ := reachable_users_inv hash hr
  obtain ⟨hle, hone⟩ := admin_role_count (ensure_admin hash db).users hp_nodup hp_inv
  refine ⟨hle, ensure_admin_exists_admin hash db, ?_, ensure_admin_rehash hash db hnodup⟩
  intro hclean
  exact hone (ensure_admin_clean hash db hclean) (ensure_admin_exists_admin hash db)

/-- Witness for the amended C9 at the fresh database: bootstrapping an
empty users relation yields exactly one admin-role account. -/
theorem ensure_admin_amended_witness :
    ((ensure_admin exHash DB.empty).users.filter (fun u => u.role == "admin")).length ≤ 1 ∧
      (∃ a ∈ (ensure_admin exHash DB.empty).users, a.username = "admin") ∧
      ((∀ u ∈ DB.empty.users, u.username = "admin" → u.role = "admin") →
        ((ensure_admin exHash DB.empty).users.filter
          (fun u => u.role == "admin")).length = 1) ∧
      (∀ a ∈ DB.empty.users, a.username = "admin" → a.password = "vinsolit" →
        ∃ a2 ∈ (ensure_admin exHash DB.empty).users,
          a2.username = "admin" ∧ a2.password = exHash "vinsolit") :=
  ensure_admin_amended exHash DB.empty Reachable.empty
